import Mathlib

/-!
Verification development for the Dropbox Sign takeout script (`download.py`).

The script has two components:

* `list_all_signature_requests` — pages through the provider's
  "list signature requests" endpoint, accumulating `SignatureRequest`
  summaries (id with transmission-id fallback, title), filtering out
  records with no id and, optionally, incomplete records.  A provider
  error on a page is caught and the same page is retried; the page
  cursor only advances on success.

* `download_signature_requests` — for each summary, computes a sanitized
  destination filename, optionally skips existing files, resolves a file
  URL through the provider, validates it, fetches it over HTTP and writes
  the bytes to disk.  Per-record provider/URL/HTTP failures are logged and
  processing moves on; filesystem failures are not caught.

The embedding below models the provider, the HTTP client and the
filesystem as explicit oracles, and the two loops as state machines
(fuel-bounded for the listing loop, which can genuinely diverge on a
persistently failing page).
-/

/-- One raw record of a provider listing response, as read by the code:
`signature_request_id`, `transmission_id` (either may be absent),
`title` and `is_complete`. -/
structure RawRecord where
  signature_request_id : Option String
  transmission_id : Option String
  title : String
  is_complete : Bool
deriving DecidableEq

/-- The summary dataclass `SignatureRequest` of the script: `id` and `title`. -/
structure SignatureRequest where
  id : String
  title : String
deriving DecidableEq

/-- The id picked for a retained record:
`request["signature_request_id"] if ... is not None else request["transmission_id"]`. -/
def pickId (r : RawRecord) : Option String :=
  match r.signature_request_id with
  | some i => some i
  | none => r.transmission_id

/-- The per-record body of the list comprehension in
`list_all_signature_requests`: keep the record iff
`(signature_request_id is not None or transmission_id is not None) and
(include_incomplete or is_complete)`, and build the summary with the
picked id and the record's title. -/
def summarize (include_incomplete : Bool) (r : RawRecord) : Option SignatureRequest :=
  if (r.signature_request_id.isSome || r.transmission_id.isSome)
      && (include_incomplete || r.is_complete) then
    (pickId r).map (fun i => { id := i, title := r.title })
  else none

/-- The `list_info` part of a listing response; the code reads
`response["list_info"]["num_pages"]`. -/
structure ListInfo where
  num_pages : Int
deriving DecidableEq

/-- One successful response of the provider's listing endpoint:
`list_info` and the raw `signature_requests` of that page. -/
structure PageResponse where
  list_info : ListInfo
  signature_requests : List RawRecord
deriving DecidableEq

/-- Provider oracle for the listing endpoint: given the number of requests
already attempted (so a retry of the same page may behave differently) and
the requested page number, either a response or a provider error
(`ApiException`). -/
def ListOracle : Type := Nat → Int → Except Unit PageResponse

/-- The mutable state of the listing loop: the 1-based `page` cursor, the
resolved `num_pages` bound (`none` while still unknown), the accumulated
summaries, plus instrumentation: the pages requested so far and the number
`t` of requests attempted so far. -/
@[ext]
structure ListerState where
  page : Int
  num_pages : Option Int
  acc : List SignatureRequest
  requested : List Int
  t : Nat
deriving DecidableEq

/-- Loop exit test: the `while` condition of the code is
`num_pages is None or page <= num_pages`, so the loop is done iff the
bound is known and the cursor exceeds it. -/
def listerDone (s : ListerState) : Bool :=
  match s.num_pages with
  | none => false
  | some n => decide (n < s.page)

/-- One iteration of the listing loop body.  On success: advance the
cursor, resolve `num_pages` if still unknown (a known bound is never
overwritten), and append the summaries of the page.  On `ApiException`:
the exception is caught and logged and no state changes besides the
request counter; the same page will be retried. -/
def listerStep (include_incomplete : Bool) (oracle : ListOracle) (s : ListerState) :
    ListerState :=
  match oracle s.t s.page with
  | .ok resp =>
      { page := s.page + 1
        num_pages := some (s.num_pages.getD resp.list_info.num_pages)
        acc := s.acc ++ resp.signature_requests.filterMap (summarize include_incomplete)
        requested := s.requested ++ [s.page]
        t := s.t + 1 }
  | .error _ =>
      { s with requested := s.requested ++ [s.page], t := s.t + 1 }

/-- Fuel-bounded run of the listing loop: `some` final state when the loop
exits within `fuel` iterations, `none` when it is still running (the loop
has no other exit, and can genuinely run forever on persistent provider
errors). -/
def runLister (include_incomplete : Bool) (oracle : ListOracle) :
    Nat → ListerState → Option ListerState
  | 0, s => if listerDone s then some s else none
  | fuel + 1, s =>
      if listerDone s then some s
      else runLister include_incomplete oracle fuel (listerStep include_incomplete oracle s)

/-- Initial loop state of `list_all_signature_requests`: `page = 1`,
`num_pages = max_pages` (the caller-supplied cap, or `None`), empty
accumulator, no requests yet. -/
def initState (max_pages : Option Int) : ListerState :=
  { page := 1, num_pages := max_pages, acc := [], requested := [], t := 0 }

/-- `list_all_signature_requests`, fuel-bounded: the returned summary list
when the loop terminates within `fuel` iterations. -/
def list_all_signature_requests (include_incomplete : Bool) (oracle : ListOracle)
    (max_pages : Option Int) (fuel : Nat) : Option (List SignatureRequest) :=
  (runLister include_incomplete oracle fuel (initState max_pages)).map (·.acc)

/-- An oracle whose answer is always a success and depends only on the
requested page (the provider is consistent across retries). -/
def pureOracle (f : Int → PageResponse) : ListOracle := fun _ page => .ok (f page)

/-- Splitting a record list into provider pages of size `page_size`
(listing order preserved); every page except possibly the last has exactly
`page_size` records when `page_size ≥ 1`. -/
def chunk (page_size : Nat) : List RawRecord → List (List RawRecord)
  | [] => []
  | x :: xs => (x :: xs.take (page_size - 1)) :: chunk page_size (xs.drop (page_size - 1))
termination_by l => l.length
decreasing_by
  simp only [List.length_drop, List.length_cons]
  omega

/-- The provider presented as pages of size `page_size` over one logical
record list `l`: page `p` (1-based) answers with the `p`-th chunk and
reports the total number of chunks as `num_pages`. -/
def chunkOracle (page_size : Nat) (l : List RawRecord) : ListOracle :=
  pureOracle fun page =>
    { list_info := { num_pages := (chunk page_size l).length }
      signature_requests := (chunk page_size l).getD (page - 1).toNat [] }

/-- A character is inside the regex class `[0-9a-zA-Z.]` of the
sanitization `re.sub("[^0-9a-zA-Z\.]+", "_", file_name)`. -/
def isSafeChar (c : Char) : Bool :=
  c.isDigit || c.isAlpha || c = '.'

/-- Streaming model of `re.sub("[^0-9a-zA-Z\.]+", "_", ·)`: scan left to
right; a safe character is copied; an unsafe character emits one
underscore when it starts a run (`inRun = false`) and nothing when the
previous character was already unsafe. -/
def sanitizeAux : Bool → List Char → List Char
  | _, [] => []
  | inRun, c :: cs =>
      if isSafeChar c then c :: sanitizeAux false cs
      else if inRun then sanitizeAux true cs
      else '_' :: sanitizeAux true cs

/-- Filename sanitization of the script applied to a string. -/
def sanitize (s : String) : String :=
  ⟨sanitizeAux false s.data⟩

/-- Spec reading of the sanitization, written independently from the
streaming model: on an unsafe character, emit a single underscore and drop
the whole maximal run of unsafe characters it starts. -/
def sanitizeRuns : List Char → List Char
  | [] => []
  | c :: cs =>
      if isSafeChar c then c :: sanitizeRuns cs
      else '_' :: sanitizeRuns (cs.dropWhile (fun d => !isSafeChar d))
termination_by l => l.length
decreasing_by
  all_goals simp only [List.length_cons]
  all_goals try omega
  have h : ∀ ds : List Char, (ds.dropWhile (fun d => !isSafeChar d)).length ≤ ds.length := by
    intro ds
    induction ds with
    | nil => simp [List.dropWhile]
    | cons d ds ih =>
        by_cases hd : !isSafeChar d
        · simp only [List.dropWhile, hd, List.length_cons]
          omega
        · simp [List.dropWhile, hd]
  have hcs := h cs
  omega

/-- The destination filename of `download_signature_requests`:
`f"{title}_{id}.pdf"` passed through the sanitizer. -/
def downloadFileName (sr : SignatureRequest) : String :=
  sanitize (sr.title ++ "_" ++ sr.id ++ ".pdf")

/-- Response of `signature_request_files_as_file_url`: the `file_url`
field may be absent (`"file_url" not in response`). -/
structure FileUrlResponse where
  file_url : Option String
deriving DecidableEq

/-- A network call the downloader makes for one record: the provider
URL-resolution call, or the HTTP fetch of the resolved URL. -/
inductive NetCall where
  | resolveUrl (id : String)
  | httpGet (url : String)
deriving DecidableEq

/-- A log line the downloader emits for one record. -/
inductive LogEvent where
  /-- `logger.error` on `ApiException` from the provider. -/
  | apiError (id : String)
  /-- `logger.warning` when the resolution response has no `file_url`. -/
  | missingFile (id : String)
  /-- `logger.error` when `validators.url` rejects the resolved URL. -/
  | invalidUrl (id : String)
  /-- `logger.error` on a non-ok HTTP status after retries. -/
  | downloadFailed (status : Int)
deriving DecidableEq

/-- An uncaught filesystem fault: the directory creation or a file write
raising an `OSError`, which no handler in the script catches. -/
inductive FsError where
  | writeError (path : String)
  | mkdirError
deriving DecidableEq

/-- Response of the HTTP fetch, after the transport's automatic retries:
`ok` (status < 400), the status code, and the body bytes. -/
structure HttpResponse where
  ok : Bool
  status_code : Int
  body : List Nat
deriving DecidableEq

/-- Environment of the downloader: the provider URL-resolution endpoint
(which may raise `ApiException`, modelled as `Except Unit`), the
`validators.url` predicate, the HTTP client, and fault oracles for the
filesystem (whether writing a given path or creating the download folder
raises). -/
structure DownloadEnv where
  files_as_file_url : String → Except Unit FileUrlResponse
  valid_url : String → Bool
  httpGet : String → HttpResponse
  write_fails : String → Bool
  mkdir_fails : Bool

/-- The download folder contents: filename/bytes pairs, newest first. -/
def FileSystem : Type := List (String × List Nat)

/-- What one loop iteration of `download_signature_requests` produced: the
new folder contents, the network calls made, and the log lines emitted. -/
structure RecordOutcome where
  fs : FileSystem
  calls : List NetCall
  logs : List LogEvent

/-- The loop body of `download_signature_requests` for one summary record:
compute the sanitized filename; skip when the file exists and overwriting
is off; resolve the file URL (an `ApiException` is caught and logged);
skip with a warning when the response has no `file_url`; skip with an
error when the URL is invalid; fetch the URL and either write the body
(an `OSError` of the write is not caught: `FsError` propagates) or log
the failed status. -/
def processRecord (env : DownloadEnv) (overwrite_existing : Bool) (fs : FileSystem)
    (sr : SignatureRequest) : Except FsError RecordOutcome :=
  let file_name := downloadFileName sr
  if (fs.lookup file_name).isSome && !overwrite_existing then
    .ok { fs := fs, calls := [], logs := [] }
  else
    match env.files_as_file_url sr.id with
    | .error _ => .ok { fs := fs, calls := [.resolveUrl sr.id], logs := [.apiError sr.id] }
    | .ok resp =>
        match resp.file_url with
        | none => .ok { fs := fs, calls := [.resolveUrl sr.id], logs := [.missingFile sr.id] }
        | some file_url =>
            if !env.valid_url file_url then
              .ok { fs := fs, calls := [.resolveUrl sr.id], logs := [.invalidUrl sr.id] }
            else
              let r := env.httpGet file_url
              if r.ok then
                if env.write_fails file_name then .error (.writeError file_name)
                else
                  .ok { fs := (file_name, r.body) :: fs
                        calls := [.resolveUrl sr.id, .httpGet file_url]
                        logs := [] }
              else
                .ok { fs := fs
                      calls := [.resolveUrl sr.id, .httpGet file_url]
                      logs := [.downloadFailed r.status_code] }

/-- Prepend one record's calls and logs to the outcome of the remaining
batch (the batch aborts instead when the remainder aborted). -/
def consOutcome (o : RecordOutcome) :
    Except FsError RecordOutcome → Except FsError RecordOutcome
  | .error e => .error e
  | .ok b => .ok { fs := b.fs, calls := o.calls ++ b.calls, logs := o.logs ++ b.logs }

/-- The record loop of `download_signature_requests`: records are
processed strictly in order; a per-record outcome feeds its filesystem to
the next record; an uncaught `FsError` aborts the whole batch. -/
def downloadGo (env : DownloadEnv) (overwrite_existing : Bool) (fs : FileSystem) :
    List SignatureRequest → Except FsError RecordOutcome
  | [] => .ok { fs := fs, calls := [], logs := [] }
  | sr :: rest =>
      match processRecord env overwrite_existing fs sr with
      | .error e => .error e
      | .ok o => consOutcome o (downloadGo env overwrite_existing o.fs rest)

/-- `download_signature_requests`: create the download folder (an
`OSError` of `mkdir` is uncaught), then run the record loop. -/
def download_signature_requests (env : DownloadEnv) (srs : List SignatureRequest)
    (fs : FileSystem) (overwrite_existing : Bool) : Except FsError RecordOutcome :=
  if env.mkdir_fails then .error .mkdirError
  else downloadGo env overwrite_existing fs srs
/-- The spec-side retention predicate: at least one of the two identifiers
is present, and the record is complete or incomplete records are included. -/
def keptSpec (include_incomplete : Bool) (r : RawRecord) : Bool :=
  (r.signature_request_id.isSome || r.transmission_id.isSome)
    && (include_incomplete || r.is_complete)

/-- The spec-side id of a retained record: the primary id when present,
otherwise the transmission id. -/
def idSpec (r : RawRecord) : String :=
  match r.signature_request_id with
  | some i => i
  | none => r.transmission_id.getD ""

/-- The consecutive page numbers `p, p + 1, ..., n` (empty when `n < p`). -/
def pageRange (p n : Int) : List Int :=
  (List.range (n + 1 - p).toNat).map (fun i : Nat => p + (i : Int))

/-- Checker for sanitized output: every character is safe or an
underscore, and no two consecutive characters are unsafe (the flag records
whether the previous character was unsafe). -/
def isSanitized : Bool → List Char → Bool
  | _, [] => true
  | prevBad, c :: cs =>
      if isSafeChar c then isSanitized false cs
      else decide (c = '_') && !prevBad && isSanitized true cs

/-- The first character, if any, is safe. -/
def headSafe : List Char → Bool
  | [] => true
  | c :: _ => isSafeChar c

/-- The run-state of the sanitizer after consuming `l` starting in state
`b`: whether the last consumed character (if any) was unsafe. -/
def endState : Bool → List Char → Bool
  | b, [] => b
  | _, c :: cs => endState (!isSafeChar c) cs

/-- Dropping a prefix never lengthens a list. -/
theorem dropWhile_length_le (p : Char → Bool) (l : List Char) :
    (l.dropWhile p).length ≤ l.length := by
  induction l with
  | nil => simp [List.dropWhile]
  | cons d ds ih =>
      by_cases hd : p d
      · simp only [List.dropWhile, hd, List.length_cons]
        omega
      · simp [List.dropWhile, hd]


theorem pageRange_eq_nil (p n : Int) (h : n < p) : pageRange p n = [] := by
  unfold pageRange
  have hz : (n + 1 - p).toNat = 0 := by omega
  rw [hz]
  rfl

theorem pageRange_cons (p n : Int) (h : p ≤ n) :
    pageRange p n = p :: pageRange (p + 1) n := by
  have hk : (n + 1 - p).toNat = (n + 1 - (p + 1)).toNat + 1 := by omega
  unfold pageRange
  rw [hk, List.range_succ_eq_map, List.map_cons, List.map_map]
  refine congrArg₂ _ (by simp) (List.map_congr_left ?_)
  intro i _
  simp only [Function.comp_apply]
  push_cast
  ring

/-- A run of the listing loop over an always-succeeding, retry-consistent
provider, started from a state whose page bound is already resolved to
`n`: the loop terminates, having requested exactly the pages from the
cursor up to `n` (in order, each once) and appended exactly the kept
summaries of those pages, in page order. -/
theorem runLister_pure (inc : Bool) (f : Int → PageResponse) :
    ∀ (fuel : Nat) (s : ListerState) (n : Int), s.num_pages = some n →
      (n + 1 - s.page).toNat ≤ fuel →
      runLister inc (pureOracle f) fuel s = some
        { page := max s.page (n + 1)
          num_pages := some n
          acc := s.acc ++ ((pageRange s.page n).map
            (fun pg => (f pg).signature_requests.filterMap (summarize inc))).flatten
          requested := s.requested ++ pageRange s.page n
          t := s.t + (n + 1 - s.page).toNat } := by
  intro fuel
  induction fuel with
  | zero =>
      intro s n hnum hfuel
      have hlt : n < s.page := by omega
      have hdone : listerDone s = true := by simp [listerDone, hnum, hlt]
      have hz : (n + 1 - s.page).toNat = 0 := by omega
      rw [runLister, hdone, if_pos rfl]
      rw [pageRange_eq_nil _ _ hlt, hz]
      refine congrArg _ (ListerState.ext ?_ ?_ ?_ ?_ ?_) <;> simp [hnum]
      omega
  | succ fuel ih =>
      intro s n hnum hfuel
      by_cases hlt : n < s.page
      · have hdone : listerDone s = true := by simp [listerDone, hnum, hlt]
        have hz : (n + 1 - s.page).toNat = 0 := by omega
        rw [runLister, hdone, if_pos rfl]
        rw [pageRange_eq_nil _ _ hlt, hz]
        refine congrArg _ (ListerState.ext ?_ ?_ ?_ ?_ ?_) <;> simp [hnum]
        omega
      · have hle : s.page ≤ n := by omega
        have hdone : listerDone s = false := by simp [listerDone, hnum]; omega
        rw [runLister, hdone]
        simp only [Bool.false_eq_true, if_false]
        have hstep : listerStep inc (pureOracle f) s =
            { page := s.page + 1
              num_pages := some n
              acc := s.acc ++ (f s.page).signature_requests.filterMap (summarize inc)
              requested := s.requested ++ [s.page]
              t := s.t + 1 } := by
          simp [listerStep, pureOracle, hnum]
        rw [hstep]
        rw [ih _ n rfl (by simp only; omega)]
        refine congrArg _ (ListerState.ext ?_ ?_ ?_ ?_ ?_) <;>
          simp [pageRange_cons s.page n hle]
        · omega
        · omega

/-- Re-joining the provider pages recovers the logical record list. -/
theorem chunk_flatten (page_size : Nat) :
    ∀ (k : Nat) (l : List RawRecord), l.length ≤ k → (chunk page_size l).flatten = l := by
  intro k
  induction k with
  | zero =>
      intro l hl
      match l with
      | [] => simp [chunk]
  | succ k ih =>
      intro l hl
      match l with
      | [] => simp [chunk]
      | x :: xs =>
          simp only [List.length_cons] at hl
          rw [chunk, List.flatten_cons]
          rw [ih (xs.drop (page_size - 1)) (by simp only [List.length_drop]; omega)]
          simp [List.take_append_drop]

/-- There are never more pages than records. -/
theorem chunk_length_le (page_size : Nat) :
    ∀ (k : Nat) (l : List RawRecord), l.length ≤ k → (chunk page_size l).length ≤ l.length := by
  intro k
  induction k with
  | zero =>
      intro l hl
      match l with
      | [] => simp [chunk]
  | succ k ih =>
      intro l hl
      match l with
      | [] => simp [chunk]
      | x :: xs =>
          simp only [List.length_cons] at hl
          rw [chunk]
          have h := ih (xs.drop (page_size - 1)) (by simp only [List.length_drop]; omega)
          simp only [List.length_cons, List.length_drop] at h ⊢
          omega

/-- Reading a list off by successive indices reproduces the list. -/
theorem map_range_getD {α : Type} (d : α) :
    ∀ P : List α, (List.range P.length).map (fun i => P.getD i d) = P := by
  intro P
  induction P with
  | nil => rfl
  | cons x xs ih =>
      rw [List.length_cons, List.range_succ_eq_map, List.map_cons, List.map_map]
      refine congrArg₂ _ (by simp) ?_
      calc (List.map ((fun i => (x :: xs).getD i d) ∘ Nat.succ) (List.range xs.length))
          = List.map (fun i => xs.getD i d) (List.range xs.length) := by
            refine List.map_congr_left ?_
            intro i _
            simp [Function.comp_apply, List.getD_cons_succ]
        _ = xs := ih

/-- The pages requested over the range `1..N` pick up every chunk once,
in order. -/
theorem pageRange_map_getD {α : Type} (d : α) (g : α → List SignatureRequest) (P : List α) :
    (pageRange 1 P.length).map (fun pg => g (P.getD (pg - 1).toNat d)) =
      P.map g := by
  unfold pageRange
  have h1 : ((1 : Int) + 1 - 1).toNat = 1 := by omega
  have hlen : ((P.length : Int) + 1 - 1).toNat = P.length := by omega
  rw [hlen, List.map_map]
  calc (List.map ((fun pg => g (P.getD (pg - 1).toNat d)) ∘ fun i : Nat => (1 : Int) + i)
          (List.range P.length))
      = List.map (fun i => g (P.getD i d)) (List.range P.length) := by
        refine List.map_congr_left ?_
        intro i _
        simp only [Function.comp_apply]
        have : ((1 : Int) + i - 1).toNat = i := by omega
        rw [this]
    _ = List.map g (List.map (fun i => P.getD i d) (List.range P.length)) := by
        rw [List.map_map]
        rfl
    _ = P.map g := by rw [map_range_getD]

/-- The list comprehension keeps exactly the records passing `keptSpec`,
in order, and each kept record becomes the summary with the primary id
when present (otherwise the transmission id) and the record's title. -/
theorem filterMap_summarize_eq (inc : Bool) (l : List RawRecord) :
    l.filterMap (summarize inc) =
      (l.filter (keptSpec inc)).map (fun r => { id := idSpec r, title := r.title }) := by
  induction l with
  | nil => rfl
  | cons r rs ih =>
      rw [List.filterMap_cons, List.filter_cons]
      rcases hsid : r.signature_request_id with _ | i <;>
        rcases htid : r.transmission_id with _ | tr <;>
        rcases hc : (inc || r.is_complete) with _ | _ <;>
        simp [summarize, keptSpec, idSpec, pickId, hsid, htid, hc, ih]

/-- A full no-failure run of the listing loop over the provider's pages of
one logical record list: the result is exactly the kept summaries of the
whole list, regardless of the page size used to split it. -/
theorem runLister_chunk (inc : Bool) (page_size : Nat) (l : List RawRecord)
    (fuel : Nat) (hfuel : l.length + 2 ≤ fuel) :
    (runLister inc (chunkOracle page_size l) fuel (initState none)).map (·.acc) =
      some (l.filterMap (summarize inc)) := by
  obtain ⟨f, rfl⟩ : ∃ f, fuel = f + 1 := ⟨fuel - 1, by omega⟩
  have hdone : listerDone (initState none) = false := by simp [listerDone, initState]
  rw [runLister, hdone]
  simp only [Bool.false_eq_true, if_false]
  have hstep : listerStep inc (chunkOracle page_size l) (initState none) =
      { page := 2
        num_pages := some ((chunk page_size l).length : Int)
        acc := ((chunk page_size l).getD 0 []).filterMap (summarize inc)
        requested := [1]
        t := 1 } := by
    simp [listerStep, chunkOracle, pureOracle, initState]
  rw [hstep, chunkOracle]
  have hNle : (chunk page_size l).length ≤ l.length :=
    chunk_length_le page_size l.length l (Nat.le_refl _)
  rw [runLister_pure inc _ f _ ((chunk page_size l).length : Int) rfl (by simp only; omega)]
  simp only [Option.map_some']
  refine congrArg _ ?_
  have hflat : l.filterMap (summarize inc) =
      ((chunk page_size l).map (fun pg => pg.filterMap (summarize inc))).flatten := by
    rw [← List.filterMap_flatten, chunk_flatten page_size l.length l (Nat.le_refl _)]
  rw [hflat]
  rcases hN : (chunk page_size l) with _ | ⟨P0, Ps⟩
  · simp [hN, pageRange_eq_nil]
  · have hcons : pageRange 2 ((P0 :: Ps).length : Int) =
        pageRange (1 + 1) ((P0 :: Ps).length : Int) := by norm_num
    have h1N : pageRange 1 ((P0 :: Ps).length : Int) =
        1 :: pageRange (1 + 1) ((P0 :: Ps).length : Int) := by
      refine pageRange_cons 1 _ ?_
      simp only [List.length_cons]
      omega
    have hmap := pageRange_map_getD ([] : List RawRecord)
      (fun pg => pg.filterMap (summarize inc)) (P0 :: Ps)
    rw [h1N, List.map_cons] at hmap
    have hfirst : ((P0 :: Ps).getD ((1 : Int) - 1).toNat []) = P0 := by norm_num
    rw [hfirst] at hmap
    rw [hcons, ← List.flatten_cons]
    simp only [List.getD_cons_zero]
    rw [hmap]

/-- Characterization of the loop exit test. -/
theorem listerDone_iff (s : ListerState) :
    listerDone s = true ↔ ∃ n, s.num_pages = some n ∧ n < s.page := by
  cases hnp : s.num_pages <;> simp [listerDone, hnp]

/-- C1: For every provider record set and every page size, the Lister's
output contains exactly those records that have at least one of the
primary signature-request id or the secondary transmission id present AND
are complete or the include-incomplete flag is enabled, in listing order;
each retained summary's id field is the primary id when present and
otherwise the transmission id; and the resulting summary list is
independent of the page size used to split the records across pages
(the right-hand side below does not mention the page size, and the second
conjunct restates the independence explicitly). -/
theorem listing_kept_records_page_size_independent (inc : Bool) (l : List RawRecord)
    (page_size : Nat) (fuel : Nat) (hfuel : l.length + 2 ≤ fuel) :
    (list_all_signature_requests inc (chunkOracle page_size l) none fuel =
      some ((l.filter (keptSpec inc)).map (fun r => { id := idSpec r, title := r.title })))
    ∧ ∀ (page_size2 fuel2 : Nat), l.length + 2 ≤ fuel2 →
        list_all_signature_requests inc (chunkOracle page_size2 l) none fuel2 =
          list_all_signature_requests inc (chunkOracle page_size l) none fuel := by
  have key : ∀ (ps fl : Nat), l.length + 2 ≤ fl →
      list_all_signature_requests inc (chunkOracle ps l) none fl =
        some ((l.filter (keptSpec inc)).map (fun r => { id := idSpec r, title := r.title })) := by
    intro ps fl hfl
    rw [list_all_signature_requests, runLister_chunk inc ps l fl hfl,
      filterMap_summarize_eq]
  exact ⟨key page_size fuel hfuel,
    fun ps2 fl2 hfl2 => (key ps2 fl2 hfl2).trans (key page_size fuel hfuel).symm⟩

/-- Witness for C1 at a concrete record set: four records (one with only a
primary id, one with only a transmission id, one with no id, one
incomplete), pages of size 2 and of size 3. -/
theorem listing_kept_records_page_size_independent_witness :
    (list_all_signature_requests false
        (chunkOracle 2 [{ signature_request_id := some "a", transmission_id := none,
                          title := "t1", is_complete := true },
                        { signature_request_id := none, transmission_id := some "b",
                          title := "t2", is_complete := true },
                        { signature_request_id := none, transmission_id := none,
                          title := "t3", is_complete := true },
                        { signature_request_id := some "c", transmission_id := some "d",
                          title := "t4", is_complete := false }]) none 10 =
      some [{ id := "a", title := "t1" }, { id := "b", title := "t2" }])
    ∧ list_all_signature_requests false
        (chunkOracle 3 [{ signature_request_id := some "a", transmission_id := none,
                          title := "t1", is_complete := true },
                        { signature_request_id := none, transmission_id := some "b",
                          title := "t2", is_complete := true },
                        { signature_request_id := none, transmission_id := none,
                          title := "t3", is_complete := true },
                        { signature_request_id := some "c", transmission_id := some "d",
                          title := "t4", is_complete := false }]) none 7 =
      list_all_signature_requests false
        (chunkOracle 2 [{ signature_request_id := some "a", transmission_id := none,
                          title := "t1", is_complete := true },
                        { signature_request_id := none, transmission_id := some "b",
                          title := "t2", is_complete := true },
                        { signature_request_id := none, transmission_id := none,
                          title := "t3", is_complete := true },
                        { signature_request_id := some "c", transmission_id := some "d",
                          title := "t4", is_complete := false }]) none 10 := by
  obtain ⟨h1, h2⟩ := listing_kept_records_page_size_independent false
    [{ signature_request_id := some "a", transmission_id := none,
       title := "t1", is_complete := true },
     { signature_request_id := none, transmission_id := some "b",
       title := "t2", is_complete := true },
     { signature_request_id := none, transmission_id := none,
       title := "t3", is_complete := true },
     { signature_request_id := some "c", transmission_id := some "d",
       title := "t4", is_complete := false }] 2 10 (by decide)
  exact ⟨h1.trans (by decide), h2 3 7 (by decide)⟩

/-- Counterexample to C2 as stated: the caller supplies `max_pages = 5`
while the provider's first response reports a total of 2 pages (so the cap
is not smaller and, per the claim, the bound should be 2 and the pages
requested should be exactly 1 and 2).  The code never reads the reported
total once a cap is supplied: it requests pages 1, 2, 3, 4, 5. -/
theorem pagination_bound_counterexample :
    (runLister true
        (pureOracle fun _ => { list_info := { num_pages := 2 }, signature_requests := [] })
        6 (initState (some 5))).map (·.requested) = some [1, 2, 3, 4, 5]
    ∧ some [(1 : Int), 2, 3, 4, 5] ≠ some [1, 2] := by
  exact ⟨by decide, by decide⟩

/-- C2 (amended): when the first page request succeeds, the iteration
bound on the 1-based page cursor is the caller-supplied page-count cap
whenever one is supplied — even when the provider's first response reports
a smaller total, which is then ignored — and only when no cap is supplied
is the bound the total page count reported by the provider in the first
response; the Lister requests exactly the pages 1 through that bound (in
order, each once, when every request succeeds). -/
theorem pagination_bound_amended (inc : Bool) (f : Int → PageResponse) (fuel : Nat) :
    (∀ m : Int, 1 ≤ m → m.toNat ≤ fuel →
      ∃ s', runLister inc (pureOracle f) fuel (initState (some m)) = some s'
        ∧ s'.requested = pageRange 1 m)
    ∧ (∀ n : Int, (f 1).list_info.num_pages = n → 1 ≤ n → n.toNat ≤ fuel →
      ∃ s', runLister inc (pureOracle f) fuel (initState none) = some s'
        ∧ s'.requested = pageRange 1 n) := by
  constructor
  · intro m hm hfuel
    refine ⟨_, runLister_pure inc f fuel (initState (some m)) m rfl ?_, ?_⟩
    · simp only [initState]
      omega
    · simp [initState]
  · intro n hn hn1 hfuel
    obtain ⟨fl, rfl⟩ : ∃ fl, fuel = fl + 1 := ⟨fuel - 1, by omega⟩
    have hdone : listerDone (initState none) = false := by simp [listerDone, initState]
    rw [runLister, hdone]
    simp only [Bool.false_eq_true, if_false]
    have hstep : listerStep inc (pureOracle f) (initState none) =
        { page := 2
          num_pages := some n
          acc := (f 1).signature_requests.filterMap (summarize inc)
          requested := [1]
          t := 1 } := by
      simp [listerStep, pureOracle, initState, hn]
    rw [hstep]
    refine ⟨_, runLister_pure inc f fl _ n rfl ?_, ?_⟩
    · simp only
      omega
    · simp only
      have : pageRange 1 n = 1 :: pageRange (1 + 1) n := pageRange_cons 1 n hn1
      norm_num at this
      rw [this]
      rfl

/-- Witness for the amended C2: a 3-page provider with no cap requests
pages 1, 2, 3; the same provider under a cap of 2 requests pages 1, 2. -/
theorem pagination_bound_amended_witness :
    (∃ s', runLister true
        (pureOracle fun _ => { list_info := { num_pages := 3 }, signature_requests := [] })
        5 (initState (some 2)) = some s' ∧ s'.requested = pageRange 1 2)
    ∧ ∃ s', runLister true
        (pureOracle fun _ => { list_info := { num_pages := 3 }, signature_requests := [] })
        5 (initState none) = some s' ∧ s'.requested = pageRange 1 3 := by
  obtain ⟨h1, h2⟩ := pagination_bound_amended true
    (fun _ => { list_info := { num_pages := 3 }, signature_requests := [] }) 5
  exact ⟨h1 2 (by decide) (by decide), h2 3 rfl (by decide) (by decide)⟩

/-- C3: a page request that fails with a provider error leaves the page
cursor, the accumulated summaries and the resolved bound unchanged (so the
next iteration retries the same page, indefinitely while the errors
persist); the loop returns only from a state whose cursor exceeds the
resolved page bound (no partial-result return path: with a persistently
failing provider it never returns at all). -/
theorem listing_failure_policy (inc : Bool) (oracle : ListOracle) :
    (∀ s : ListerState, oracle s.t s.page = .error () →
      (listerStep inc oracle s).page = s.page
        ∧ (listerStep inc oracle s).acc = s.acc
        ∧ (listerStep inc oracle s).num_pages = s.num_pages)
    ∧ (∀ (fuel : Nat) (s s' : ListerState), runLister inc oracle fuel s = some s' →
        ∃ n, s'.num_pages = some n ∧ n < s'.page)
    ∧ (∀ s : ListerState, (∀ t pg, oracle t pg = .error ()) → listerDone s = false →
        ∀ fuel, runLister inc oracle fuel s = none) := by
  refine ⟨?_, ?_, ?_⟩
  · intro s h
    simp [listerStep, h]
  · intro fuel
    induction fuel with
    | zero =>
        intro s s' h
        rw [runLister] at h
        by_cases hdone : listerDone s = true
        · rw [hdone, if_pos rfl] at h
          obtain rfl : s = s' := Option.some_injective _ h
          exact (listerDone_iff s).mp hdone
        · rw [eq_false_of_ne_true hdone] at h
          simp at h
    | succ fuel ih =>
        intro s s' h
        rw [runLister] at h
        by_cases hdone : listerDone s = true
        · rw [hdone, if_pos rfl] at h
          obtain rfl : s = s' := Option.some_injective _ h
          exact (listerDone_iff s).mp hdone
        · rw [eq_false_of_ne_true hdone] at h
          simp only [Bool.false_eq_true, if_false] at h
          exact ih _ _ h
  · intro s hall hfalse fuel
    induction fuel generalizing s with
    | zero =>
        rw [runLister, hfalse]
        simp
    | succ fuel ih =>
        rw [runLister, hfalse]
        simp only [Bool.false_eq_true, if_false]
        refine ih _ ?_
        have hstep : listerStep inc oracle s =
            { s with requested := s.requested ++ [s.page], t := s.t + 1 } := by
          simp [listerStep, hall s.t s.page]
        rw [hstep]
        exact hfalse

/-- Witness for C3 at a persistently failing provider from the initial
state. -/
theorem listing_failure_policy_witness :
    (listerStep true (fun _ _ => .error ()) (initState none)).page = 1
    ∧ (listerStep true (fun _ _ => .error ()) (initState none)).acc = []
    ∧ runLister true (fun _ _ => .error ()) 7 (initState none) = none := by
  obtain ⟨h1, _, h3⟩ := listing_failure_policy true (fun _ _ => .error ())
  obtain ⟨hp, ha, _⟩ := h1 (initState none) rfl
  exact ⟨hp, ha, h3 (initState none) (fun _ _ => rfl) rfl 7⟩

/-- C9: with a non-positive caller-supplied page cap the `while` condition
`page <= num_pages` is false at the very first test, so the Lister returns
with the empty accumulator having made no provider request at all. -/
theorem nonpositive_cap_empty (inc : Bool) (oracle : ListOracle) (m : Int)
    (hm : m ≤ 0) (fuel : Nat) :
    runLister inc oracle fuel (initState (some m)) = some (initState (some m))
    ∧ (initState (some m)).acc = [] ∧ (initState (some m)).requested = [] := by
  have hdone : listerDone (initState (some m)) = true := by
    simp only [listerDone, initState]
    simpa using by omega
  refine ⟨?_, rfl, rfl⟩
  cases fuel <;> rw [runLister, hdone, if_pos rfl]

/-- Witness for C9 at cap 0. -/
theorem nonpositive_cap_empty_witness :
    runLister true (fun _ _ => .error ()) 3 (initState (some 0)) = some (initState (some 0))
    ∧ (initState (some 0)).acc = [] ∧ (initState (some 0)).requested = [] :=
  nonpositive_cap_empty true (fun _ _ => .error ()) 0 (by decide) 3

/-- When already inside an unsafe run, the sanitizer just skips the rest
of the run. -/
theorem sanitizeAux_true_dropWhile (cs : List Char) :
    sanitizeAux true cs = sanitizeAux false (cs.dropWhile (fun d => !isSafeChar d)) := by
  induction cs with
  | nil => rfl
  | cons c cs ih =>
      by_cases h : isSafeChar c
      · simp [sanitizeAux, List.dropWhile, h]
      · simp [sanitizeAux, List.dropWhile, h, ih]

/-- The streaming sanitizer agrees with the spec reading that replaces
each maximal unsafe run by a single underscore. -/
theorem sanitizeAux_eq_sanitizeRuns :
    ∀ (k : Nat) (l : List Char), l.length ≤ k → sanitizeAux false l = sanitizeRuns l := by
  intro k
  induction k with
  | zero =>
      intro l hl
      match l with
      | [] => simp [sanitizeRuns, sanitizeAux]
  | succ k ih =>
      intro l hl
      match l with
      | [] => simp [sanitizeRuns, sanitizeAux]
      | c :: cs =>
          simp only [List.length_cons] at hl
          by_cases h : isSafeChar c
          · rw [sanitizeRuns]
            simp only [h, if_pos]
            simp only [sanitizeAux, h, if_pos]
            rw [ih cs (by omega)]
          · rw [sanitizeRuns]
            simp only [h, Bool.false_eq_true, if_false]
            simp only [sanitizeAux, h, Bool.false_eq_true, if_false]
            rw [sanitizeAux_true_dropWhile]
            rw [ih (cs.dropWhile (fun d => !isSafeChar d))
              (le_trans (dropWhile_length_le _ cs) (by omega))]

/-- After an unsafe run has started, the sanitizer never emits an unsafe
character first. -/
theorem headSafe_sanitizeAux_true (l : List Char) :
    headSafe (sanitizeAux true l) = true := by
  induction l with
  | nil => rfl
  | cons c cs ih =>
      by_cases h : isSafeChar c
      · simp [sanitizeAux, h, headSafe]
      · simp only [sanitizeAux, h, Bool.false_eq_true, if_false, if_pos]
        exact ih

/-- A sanitized string whose head is safe is also sanitized when the
previous character was unsafe. -/
theorem isSanitized_true_of_headSafe (l : List Char) (hh : headSafe l = true)
    (hs : isSanitized false l = true) : isSanitized true l = true := by
  match l with
  | [] => rfl
  | c :: cs =>
      have hc : isSafeChar c = true := hh
      simpa [isSanitized, hc] using hs

/-- The output of the sanitizer is sanitized: only safe characters and
isolated underscores. -/
theorem isSanitized_sanitizeAux (l : List Char) :
    ∀ b, isSanitized false (sanitizeAux b l) = true := by
  induction l with
  | nil => intro b; rfl
  | cons c cs ih =>
      intro b
      by_cases h : isSafeChar c
      · simp only [sanitizeAux, h, if_pos]
        simpa [isSanitized, h] using ih false
      · match b with
        | true =>
            simp only [sanitizeAux, h, Bool.false_eq_true, if_false, if_pos]
            exact ih true
        | false =>
            simp only [sanitizeAux, h, Bool.false_eq_true, if_false]
            have hu : isSafeChar '_' = false := by decide
            have hx := isSanitized_true_of_headSafe _ (headSafe_sanitizeAux_true cs) (ih true)
            simp [isSanitized, hu, hx]

/-- The sanitizer fixes every sanitized string. -/
theorem sanitizeAux_of_isSanitized :
    ∀ (l : List Char) (b : Bool), isSanitized b l = true → sanitizeAux b l = l := by
  intro l
  induction l with
  | nil => intro b _; rfl
  | cons c cs ih =>
      intro b hs
      by_cases h : isSafeChar c
      · simp only [isSanitized, h, if_pos] at hs
        simp only [sanitizeAux, h, if_pos]
        rw [ih false hs]
      · simp only [isSanitized, h, Bool.false_eq_true, if_false, Bool.and_eq_true,
          decide_eq_true_eq, Bool.not_eq_true'] at hs
        obtain ⟨⟨hc, hb⟩, hcs⟩ := hs
        subst hc hb
        simp only [sanitizeAux, h, Bool.false_eq_true, if_false]
        rw [ih true hcs]

/-- C5: the filename sanitization is deterministic (a pure function:
equal inputs give equal outputs) and idempotent (sanitizing an
already-sanitized string returns it unchanged). -/
theorem sanitize_deterministic_idempotent (s t : String) :
    (s = t → sanitize s = sanitize t) ∧ sanitize (sanitize s) = sanitize s := by
  refine ⟨fun h => by rw [h], ?_⟩
  unfold sanitize
  exact congrArg String.mk (sanitizeAux_of_isSanitized _ false (isSanitized_sanitizeAux _ false))

/-- Witness for C5 at a concrete string with two unsafe runs. -/
theorem sanitize_deterministic_idempotent_witness :
    sanitize "a b//c" = sanitize "a b//c"
    ∧ sanitize (sanitize "a b//c") = sanitize "a b//c" :=
  ⟨(sanitize_deterministic_idempotent "a b//c" "a b//c").1 rfl,
    (sanitize_deterministic_idempotent "a b//c" "a b//c").2⟩

/-- C4: the destination filename is `{title}_{id}.pdf` with every maximal
run of characters outside the class `[0-9a-zA-Z.]` replaced by one
underscore (the run-replacement reading `sanitizeRuns`, stated over the
streaming implementation model), and on the two summaries of the
end-to-end scenario it yields `Contract_One_A1.pdf` and
`Contract_Two_B2.pdf`. -/
theorem download_file_name_spec (sr : SignatureRequest) :
    downloadFileName sr = String.mk (sanitizeRuns (sr.title ++ "_" ++ sr.id ++ ".pdf").data)
    ∧ downloadFileName { id := "A1", title := "Contract One" } = "Contract_One_A1.pdf"
    ∧ downloadFileName { id := "B2", title := "Contract/Two" } = "Contract_Two_B2.pdf" := by
  refine ⟨?_, by decide, by decide⟩
  unfold downloadFileName sanitize
  exact congrArg String.mk (sanitizeAux_eq_sanitizeRuns _ _ (Nat.le_refl _))

/-- The sanitizer processes an appended suffix from the run-state left by
the prefix. -/
theorem sanitizeAux_append (m : List Char) :
    ∀ (l : List Char) (b : Bool),
      sanitizeAux b (l ++ m) = sanitizeAux b l ++ sanitizeAux (endState b l) m := by
  intro l
  induction l with
  | nil => intro b; rfl
  | cons c cs ih =>
      intro b
      by_cases h : isSafeChar c
      · simp only [List.cons_append, sanitizeAux, h, if_pos, endState, List.append_eq,
          Bool.not_true]
        rw [ih false]
      · match b with
        | true =>
            simp only [List.cons_append, sanitizeAux, h, Bool.false_eq_true, if_false,
              if_pos, endState, List.append_eq, Bool.not_false]
            rw [ih true]
        | false =>
            simp only [List.cons_append, sanitizeAux, h, Bool.false_eq_true, if_false,
              endState, List.append_eq, Bool.not_false]
            rw [ih true]

/-- A string of safe characters passes through the sanitizer unchanged,
from any run-state. -/
theorem sanitizeAux_all_safe :
    ∀ (m : List Char), (∀ c ∈ m, isSafeChar c = true) → ∀ b, sanitizeAux b m = m := by
  intro m
  induction m with
  | nil => intro _ b; rfl
  | cons c cs ih =>
      intro hall b
      have hc : isSafeChar c = true := hall c (List.mem_cons_self c cs)
      simp only [sanitizeAux, hc, if_pos]
      rw [ih (fun d hd => hall d (List.mem_cons_of_mem c hd)) false]

/-- Every character the sanitizer emits is safe or an underscore. -/
theorem mem_sanitizeAux :
    ∀ (l : List Char) (b : Bool) (c : Char), c ∈ sanitizeAux b l →
      isSafeChar c = true ∨ c = '_' := by
  intro l
  induction l with
  | nil => intro b c hc; simp [sanitizeAux] at hc
  | cons d ds ih =>
      intro b c hc
      by_cases h : isSafeChar d
      · simp only [sanitizeAux, h, if_pos, List.mem_cons] at hc
        rcases hc with rfl | hc
        · exact Or.inl h
        · exact ih false c hc
      · match b with
        | true =>
            simp only [sanitizeAux, h, Bool.false_eq_true, if_false, if_pos] at hc
            exact ih true c hc
        | false =>
            simp only [sanitizeAux, h, Bool.false_eq_true, if_false, List.mem_cons] at hc
            rcases hc with rfl | hc
            · exact Or.inr rfl
            · exact ih true c hc

/-- C10: for every summary record (any title and id strings), the computed
destination filename is non-empty, consists only of characters from
`[0-9a-zA-Z._]`, and ends in `.pdf`. -/
theorem download_file_name_invariant (sr : SignatureRequest) :
    (downloadFileName sr).data ≠ []
    ∧ (∀ c ∈ (downloadFileName sr).data, isSafeChar c = true ∨ c = '_')
    ∧ ∃ p, (downloadFileName sr).data = p ++ ".pdf".data := by
  have hsafe : ∀ c ∈ ".pdf".data, isSafeChar c = true := by decide
  have hdata : (downloadFileName sr).data =
      sanitizeAux false (sr.title ++ "_" ++ sr.id).data ++ ".pdf".data := by
    show (sanitize (sr.title ++ "_" ++ sr.id ++ ".pdf")).data = _
    unfold sanitize
    show sanitizeAux false (sr.title ++ "_" ++ sr.id ++ ".pdf").data = _
    rw [String.data_append, sanitizeAux_append]
    rw [sanitizeAux_all_safe _ hsafe]
  refine ⟨?_, ?_, ⟨_, hdata⟩⟩
  · rw [hdata]
    simp
  · intro c hc
    rw [hdata] at hc
    rcases List.mem_append.mp hc with hc | hc
    · exact mem_sanitizeAux _ false c hc
    · exact Or.inl (hsafe c hc)

/-- C6: when overwriting is disabled and the destination file already
exists, the record is skipped entirely: the new folder contents are the
old ones (so the existing file's bytes are untouched), no network call is
made (neither URL resolution nor download) and nothing is logged. -/
theorem overwrite_disabled_skips_existing (env : DownloadEnv) (fs : FileSystem)
    (sr : SignatureRequest) (content : List Nat)
    (h : fs.lookup (downloadFileName sr) = some content) :
    processRecord env false fs sr = .ok { fs := fs, calls := [], logs := [] } := by
  unfold processRecord
  simp [h]

/-- Witness for C6: the destination for id `A1`, title `T` already on
disk, overwriting disabled, with an environment whose every call would be
observable. -/
theorem overwrite_disabled_skips_existing_witness :
    processRecord
      { files_as_file_url := fun _ => .ok { file_url := some "https:u" }
        valid_url := fun _ => true
        httpGet := fun _ => { ok := true, status_code := 200, body := [9] }
        write_fails := fun _ => false
        mkdir_fails := false }
      false [("T_A1.pdf", [7])] { id := "A1", title := "T" } =
      .ok { fs := [("T_A1.pdf", [7])], calls := [], logs := [] } :=
  overwrite_disabled_skips_existing _ _ _ [7] (by decide)

/-- C7: when the file-resolution response has no `file_url` field (and the
record was not skipped by the existence check), the downloader logs a
warning and skips the record: the folder contents are unchanged, so the
destination file is not created, and the only network call is the
resolution itself. -/
theorem missing_file_url_skips (env : DownloadEnv) (overwrite_existing : Bool)
    (fs : FileSystem) (sr : SignatureRequest)
    (hresolve : env.files_as_file_url sr.id = .ok { file_url := none })
    (hguard : ((fs.lookup (downloadFileName sr)).isSome && !overwrite_existing) = false) :
    processRecord env overwrite_existing fs sr =
      .ok { fs := fs, calls := [.resolveUrl sr.id], logs := [.missingFile sr.id] } := by
  unfold processRecord
  simp [hguard, hresolve]

/-- Witness for C7: a provider that resolves id `A1` to a response with no
file reference, on an empty download folder. -/
theorem missing_file_url_skips_witness :
    processRecord
      { files_as_file_url := fun _ => .ok { file_url := none }
        valid_url := fun _ => true
        httpGet := fun _ => { ok := true, status_code := 200, body := [9] }
        write_fails := fun _ => false
        mkdir_fails := false }
      false [] { id := "A1", title := "T" } =
      .ok { fs := [], calls := [.resolveUrl "A1"], logs := [.missingFile "A1"] } :=
  missing_file_url_skips _ false [] { id := "A1", title := "T" } rfl (by decide)

/-- When writing the destination path would not raise, a record can only
end in an ok-outcome, whatever the provider, the URL validator or the HTTP
client do. -/
theorem processRecord_ok_of_no_write_fault (env : DownloadEnv) (overwrite_existing : Bool)
    (fs : FileSystem) (sr : SignatureRequest)
    (hw : env.write_fails (downloadFileName sr) = false) :
    ∃ o, processRecord env overwrite_existing fs sr = .ok o := by
  by_cases h1 : ((fs.lookup (downloadFileName sr)).isSome && !overwrite_existing) = true
  · exact ⟨_, by unfold processRecord; simp [h1]; rfl⟩
  · cases hr : env.files_as_file_url sr.id with
    | error e => exact ⟨_, by unfold processRecord; simp [h1, hr]; rfl⟩
    | ok resp =>
        cases hu : resp.file_url with
        | none => exact ⟨_, by unfold processRecord; simp [h1, hr, hu]; rfl⟩
        | some u =>
            by_cases hv : env.valid_url u = true
            · by_cases hok : (env.httpGet u).ok = true
              · exact ⟨_, by unfold processRecord; simp [h1, hr, hu, hv, hok, hw]; rfl⟩
              · exact ⟨_, by unfold processRecord; simp [h1, hr, hu, hv, hok]; rfl⟩
            · exact ⟨_, by unfold processRecord; simp [h1, hr, hu, hv]; rfl⟩

/-- C8: per-record failures — a provider error on URL resolution, a
malformed resolved URL, or a non-success HTTP status after the transport's
retries — are logged and the batch moves on to the next record, never
aborting: without filesystem faults the whole batch always returns an
ok-outcome.  By contrast a filesystem fault is not caught: a failing write
turns the record into an `FsError` that aborts the batch at once, and a
failing directory creation aborts the whole batch with `mkdirError`
before any record is processed. -/
theorem download_error_policy (env : DownloadEnv) (overwrite_existing : Bool) :
    ((env.mkdir_fails = false) → (∀ p, env.write_fails p = false) →
      ∀ (srs : List SignatureRequest) (fs : FileSystem),
        ∃ b, download_signature_requests env srs fs overwrite_existing = .ok b)
    ∧ (∀ fs sr, ((fs.lookup (downloadFileName sr)).isSome && !overwrite_existing) = false →
        (env.files_as_file_url sr.id = .error () →
          processRecord env overwrite_existing fs sr =
            .ok { fs := fs, calls := [.resolveUrl sr.id], logs := [.apiError sr.id] })
        ∧ (∀ u, env.files_as_file_url sr.id = .ok { file_url := some u } →
            env.valid_url u = false →
            processRecord env overwrite_existing fs sr =
              .ok { fs := fs, calls := [.resolveUrl sr.id], logs := [.invalidUrl sr.id] })
        ∧ (∀ u, env.files_as_file_url sr.id = .ok { file_url := some u } →
            env.valid_url u = true → (env.httpGet u).ok = false →
            processRecord env overwrite_existing fs sr =
              .ok { fs := fs, calls := [.resolveUrl sr.id, .httpGet u],
                    logs := [.downloadFailed (env.httpGet u).status_code] }))
    ∧ (∀ fs sr rest o, processRecord env overwrite_existing fs sr = .ok o →
        downloadGo env overwrite_existing fs (sr :: rest) =
          consOutcome o (downloadGo env overwrite_existing o.fs rest))
    ∧ (∀ fs sr rest e, env.mkdir_fails = false →
        processRecord env overwrite_existing fs sr = .error e →
        download_signature_requests env (sr :: rest) fs overwrite_existing = .error e)
    ∧ (∀ fs sr u, ((fs.lookup (downloadFileName sr)).isSome && !overwrite_existing) = false →
        env.files_as_file_url sr.id = .ok { file_url := some u } →
        env.valid_url u = true → (env.httpGet u).ok = true →
        env.write_fails (downloadFileName sr) = true →
        processRecord env overwrite_existing fs sr =
          .error (.writeError (downloadFileName sr)))
    ∧ (∀ (srs : List SignatureRequest) (fs : FileSystem), env.mkdir_fails = true →
        download_signature_requests env srs fs overwrite_existing = .error .mkdirError) := by
  refine ⟨?_, ?_, ?_, ?_, ?_, ?_⟩
  · intro hmk hw srs
    induction srs with
    | nil =>
        intro fs
        exact ⟨_, by simp [download_signature_requests, hmk, downloadGo]; rfl⟩
    | cons sr rest ih =>
        intro fs
        obtain ⟨o, ho⟩ :=
          processRecord_ok_of_no_write_fault env overwrite_existing fs sr (hw _)
        obtain ⟨b, hb⟩ := ih o.fs
        simp only [download_signature_requests, hmk, Bool.false_eq_true, if_false] at hb ⊢
        refine ⟨{ fs := b.fs, calls := o.calls ++ b.calls, logs := o.logs ++ b.logs }, ?_⟩
        rw [downloadGo, ho]
        show consOutcome o (downloadGo env overwrite_existing o.fs rest) =
          Except.ok { fs := b.fs, calls := o.calls ++ b.calls, logs := o.logs ++ b.logs }
        rw [hb]
        rfl
  · intro fs sr hguard
    refine ⟨?_, ?_, ?_⟩
    · intro hr
      unfold processRecord
      simp [hguard, hr]
    · intro u hr hv
      unfold processRecord
      simp [hguard, hr, hv]
    · intro u hr hv hok
      unfold processRecord
      simp [hguard, hr, hv, hok]
  · intro fs sr rest o h
    rw [downloadGo, h]
  · intro fs sr rest e hmk h
    simp only [download_signature_requests, hmk, Bool.false_eq_true, if_false]
    rw [downloadGo, h]
  · intro fs sr u hguard hr hv hok hw
    unfold processRecord
    simp [hguard, hr, hv, hok, hw]
  · intro srs fs hmk
    simp [download_signature_requests, hmk]

/-- Witness for C8: a one-record batch whose resolution raises completes
with an ok-outcome; a batch whose first record's write faults aborts with
that record's write error, before the second record; and a batch whose
directory creation faults aborts before any record. -/
theorem download_error_policy_witness :
    (∃ b, download_signature_requests
      { files_as_file_url := fun _ => .error ()
        valid_url := fun _ => true
        httpGet := fun _ => { ok := true, status_code := 200, body := [1] }
        write_fails := fun _ => false
        mkdir_fails := false }
      [{ id := "A1", title := "T" }] [] true = .ok b)
    ∧ download_signature_requests
      { files_as_file_url := fun _ => .ok { file_url := some "https:u" }
        valid_url := fun _ => true
        httpGet := fun _ => { ok := true, status_code := 200, body := [1] }
        write_fails := fun _ => true
        mkdir_fails := false }
      [{ id := "A1", title := "T" }, { id := "B2", title := "U" }] [] true =
      .error (.writeError (downloadFileName { id := "A1", title := "T" }))
    ∧ download_signature_requests
      { files_as_file_url := fun _ => .ok { file_url := some "https:u" }
        valid_url := fun _ => true
        httpGet := fun _ => { ok := true, status_code := 200, body := [1] }
        write_fails := fun _ => false
        mkdir_fails := true }
      [{ id := "A1", title := "T" }] [] true = .error .mkdirError := by
  obtain ⟨ha, _, _, _, _, _⟩ := download_error_policy
    { files_as_file_url := fun _ => .error ()
      valid_url := fun _ => true
      httpGet := fun _ => { ok := true, status_code := 200, body := [1] }
      write_fails := fun _ => false
      mkdir_fails := false } true
  obtain ⟨_, _, _, hd2, he2, _⟩ := download_error_policy
    { files_as_file_url := fun _ => .ok { file_url := some "https:u" }
      valid_url := fun _ => true
      httpGet := fun _ => { ok := true, status_code := 200, body := [1] }
      write_fails := fun _ => true
      mkdir_fails := false } true
  obtain ⟨_, _, _, _, _, hf3⟩ := download_error_policy
    { files_as_file_url := fun _ => .ok { file_url := some "https:u" }
      valid_url := fun _ => true
      httpGet := fun _ => { ok := true, status_code := 200, body := [1] }
      write_fails := fun _ => false
      mkdir_fails := true } true
  refine ⟨ha rfl (fun _ => rfl) [{ id := "A1", title := "T" }] [], ?_,
    hf3 [{ id := "A1", title := "T" }] [] rfl⟩
  exact hd2 [] { id := "A1", title := "T" } [{ id := "B2", title := "U" }] _ rfl
    (he2 [] { id := "A1", title := "T" } "https:u" (by decide) rfl rfl rfl rfl)

/-- Witness for C10 at the summary of the end-to-end scenario. -/
theorem download_file_name_invariant_witness :
    (downloadFileName { id := "A1", title := "Contract One" }).data ≠ []
    ∧ (isSafeChar 'C' = true ∨ 'C' = '_')
    ∧ ∃ p, (downloadFileName { id := "A1", title := "Contract One" }).data =
        p ++ ".pdf".data := by
  obtain ⟨h1, h2, h3⟩ := download_file_name_invariant { id := "A1", title := "Contract One" }
  exact ⟨h1, h2 'C' (by decide), h3⟩
